import Mathlib

/-!
# Verification of the tinyRayTracer core (src/main.cpp)

Shallow embedding of the ray tracer in `src/main.cpp`.  C++ `float`
arithmetic is idealised as real arithmetic (`ℝ`); `sqrtf` becomes
`Real.sqrt`, `powf` becomes `Real.rpow`.  The C++ out-parameter style of
`scene_intersect` is embedded by threading the written record explicitly,
and the `numeric_limits<float>::max()` sentinel distance is embedded as
`Option ℝ` (`none` = the sentinel was never beaten).
-/

set_option maxHeartbeats 1000000

noncomputable section

/-- Embedding of `Vec3f`: a 3-component vector, floats idealised as reals. -/
structure Vec3 where
  x : ℝ
  y : ℝ
  z : ℝ

/-- Embedding of `Vec3f::operator+` (componentwise addition). -/
instance : Add Vec3 :=
  ⟨fun a b => ⟨a.x + b.x, a.y + b.y, a.z + b.z⟩⟩

/-- Embedding of `Vec3f::operator-` (componentwise subtraction). -/
instance : Sub Vec3 :=
  ⟨fun a b => ⟨a.x - b.x, a.y - b.y, a.z - b.z⟩⟩

/-- Componentwise negation, used as `-light_dir` at the specular term. -/
instance : Neg Vec3 :=
  ⟨fun a => ⟨-a.x, -a.y, -a.z⟩⟩

/-- Embedding of `Vec3f::operator*` (scalar multiplication on the right). -/
instance : HMul Vec3 ℝ Vec3 :=
  ⟨fun a k => ⟨a.x * k, a.y * k, a.z * k⟩⟩

/-- Embedding of `Vec3f::dot`. -/
def Vec3.dot (a b : Vec3) : ℝ :=
  a.x * b.x + a.y * b.y + a.z * b.z

/-- Embedding of `Vec3f::normalize`: `mag = sqrt(dot(*this)); return *this * (1.f / mag)`. -/
def Vec3.normalize (a : Vec3) : Vec3 :=
  a * (1 / Real.sqrt (a.dot a))

/-- Embedding of `Light`. -/
structure Light where
  position : Vec3
  intensity : ℝ

/-- Embedding of `Sphere` (geometry plus material data). -/
structure Sphere where
  center : Vec3
  radius : ℝ
  color : Vec3
  specular : ℝ
  reflective : ℝ

/-- The projection `tca = L.dot(dir)` with `L = center - orig` (src/main.cpp:54-55). -/
def Sphere.tca (s : Sphere) (orig dir : Vec3) : ℝ :=
  (s.center - orig).dot dir

/-- The squared distance `d2 = L.dot(L) - tca*tca` (src/main.cpp:56). -/
def Sphere.d2 (s : Sphere) (orig dir : Vec3) : ℝ :=
  (s.center - orig).dot (s.center - orig) - s.tca orig dir * s.tca orig dir

/-- The half-chord `thc = sqrt(radius*radius - d2)` (src/main.cpp:58). -/
def Sphere.thc (s : Sphere) (orig dir : Vec3) : ℝ :=
  Real.sqrt (s.radius * s.radius - s.d2 orig dir)

/-- The near root `t0 = tca - thc` (src/main.cpp:59). -/
def Sphere.t0 (s : Sphere) (orig dir : Vec3) : ℝ :=
  s.tca orig dir - s.thc orig dir

/-- The far root `t1 = tca + thc` (src/main.cpp:60). -/
def Sphere.t1 (s : Sphere) (orig dir : Vec3) : ℝ :=
  s.tca orig dir + s.thc orig dir

/-- Embedding of `Sphere::ray_intersect` (src/main.cpp:53-64).  The C++
returns `bool` plus the distance through the out-parameter `t0`; here the
two are fused into `Option ℝ` (`none` = `return false`). -/
def Sphere.ray_intersect (s : Sphere) (orig dir : Vec3) : Option ℝ :=
  if s.d2 orig dir > s.radius * s.radius then none
  else
    let near := s.t0 orig dir
    let t := if near < 0 then s.t1 orig dir else near
    if t < 0 then none else some t

/-- Embedding of `reflect(I, N) = I - N * 2.f * I.dot(N)` (src/main.cpp:67-69). -/
def reflect (I N : Vec3) : Vec3 :=
  I - N * (2 : ℝ) * I.dot N

/-- The record of the five out-parameters `hit, N, color, spec, refl` of
`scene_intersect` (src/main.cpp:75-79); C++ writes them by reference. -/
structure HitData where
  hit : Vec3
  N : Vec3
  color : Vec3
  spec : ℝ
  refl : ℝ

/-- The body executed per sphere when a closer hit is found
(src/main.cpp:85-90): the five out-parameters are overwritten from the
winning sphere and the ray parameter `t`. -/
def hitWrite (orig dir : Vec3) (s : Sphere) (t : ℝ) : HitData :=
  ⟨orig + dir * t, (orig + dir * t - s.center).normalize, s.color, s.specular, s.reflective⟩

/-- The `for (const Sphere &s : spheres)` loop of `scene_intersect`
(src/main.cpp:82-92), with accumulator = (best distance so far, current
out-parameter values).  The C++ starts `dist` at
`numeric_limits<float>::max()` and tests `t < dist`; that sentinel is
embedded as `none` (against which every candidate wins). -/
def sceneLoop (orig dir : Vec3) : List Sphere → Option ℝ × HitData → Option ℝ × HitData
  | [], acc => acc
  | s :: rest, (best, out) =>
      sceneLoop orig dir rest
        (match s.ray_intersect orig dir with
         | some t =>
             match best with
             | none => (some t, hitWrite orig dir s t)
             | some d => if t < d then (some t, hitWrite orig dir s t) else (best, out)
         | none => (best, out))

/-- Embedding of `scene_intersect` (src/main.cpp:71-94).  `st` is the value
the caller's out-parameter variables hold before the call; the C++ `bool`
result `dist < max` is the `Option.isSome` of the first component. -/
def scene_intersect (orig dir : Vec3) (spheres : List Sphere) (st : HitData) :
    Option ℝ × HitData :=
  sceneLoop orig dir spheres (none, st)

/-- The background color `Vec3f(0.2, 0.7, 0.8)` (src/main.cpp:107). -/
def background : Vec3 :=
  ⟨0.2, 0.7, 0.8⟩

/-- One iteration of the `for (const Light &light : lights)` loop of
`cast_ray` (src/main.cpp:111-124), acting on the accumulator pair
`(diffuse, specular)`.  `st` models the shadow query's local out-parameter
variables (`shadow_hit`, `shadow_N`, `tmp`, `sh_spec`, `sh_refl`). -/
def lightStep (st : HitData) (hit N dir : Vec3) (spec : ℝ) (spheres : List Sphere)
    (acc : ℝ × ℝ) (light : Light) : ℝ × ℝ :=
  let light_dir := (light.position - hit).normalize
  if (scene_intersect (hit + N * (1e-3 : ℝ)) light_dir spheres st).1.isSome then acc
  else
    (acc.1 + light.intensity * max 0 (light_dir.dot N),
     acc.2 + Real.rpow (max 0 ((reflect (-light_dir) N).dot dir)) spec * light.intensity)

/-- Embedding of `cast_ray` (src/main.cpp:96-132).  `st` is the value of the
local out-parameter variables (`hit, N, color, spec, refl`) before
`scene_intersect` writes them; the same record stands in for the fresh
locals of every nested call.  The `depth > 4` test short-circuits before any
intersection test, exactly as the C++ `||` does, and the recursion is on
`depth + 1`, terminating because `5 - depth` decreases. -/
def cast_ray (st : HitData) (orig dir : Vec3) (spheres : List Sphere)
    (lights : List Light) (depth : ℕ) : Vec3 :=
  if depth > 4 then background
  else
    match scene_intersect orig dir spheres st with
    | (none, _) => background
    | (some _, out) =>
        let ds := lights.foldl (lightStep st out.hit out.N dir out.spec spheres) (0, 0)
        let reflect_dir := (reflect dir out.N).normalize
        let reflect_color := cast_ray st (out.hit + out.N * (1e-3 : ℝ)) reflect_dir spheres lights (depth + 1)
        out.color * ds.1 * (1 - out.refl) + (⟨1, 1, 1⟩ : Vec3) * ds.2 * (0.6 : ℝ) + reflect_color * out.refl
termination_by 5 - depth
decreasing_by omega

/-- The diffuse term one light adds when unoccluded:
`light.intensity * max(0.f, light_dir.dot(N))` (src/main.cpp:121). -/
def diffuseTerm (hit N : Vec3) (light : Light) : ℝ :=
  light.intensity * max 0 (((light.position - hit).normalize).dot N)

/-- The specular term one light adds when unoccluded:
`pow(max(0.f, reflect_dir.dot(dir)), spec) * light.intensity`
(src/main.cpp:122-123). -/
def specularTerm (hit N dir : Vec3) (spec : ℝ) (light : Light) : ℝ :=
  Real.rpow (max 0 ((reflect (-((light.position - hit).normalize)) N).dot dir)) spec * light.intensity

/-- Whether a light is occluded at `hit`: the shadow ray cast from
`hit + N*1e-3` toward the light intersects some sphere (src/main.cpp:117-119). -/
def occluded (st : HitData) (hit N : Vec3) (spheres : List Sphere) (light : Light) : Prop :=
  (scene_intersect (hit + N * (1e-3 : ℝ)) ((light.position - hit).normalize) spheres st).1.isSome

/-- Sum of the diffuse contributions of the unoccluded lights. -/
def totalDiffuse (st : HitData) (hit N : Vec3) (spheres : List Sphere)
    (lights : List Light) : ℝ :=
  (lights.map (fun l =>
    if (scene_intersect (hit + N * (1e-3 : ℝ)) ((l.position - hit).normalize) spheres st).1.isSome
    then 0 else diffuseTerm hit N l)).sum

/-- Sum of the specular contributions of the unoccluded lights. -/
def totalSpecular (st : HitData) (hit N dir : Vec3) (spec : ℝ) (spheres : List Sphere)
    (lights : List Light) : ℝ :=
  (lights.map (fun l =>
    if (scene_intersect (hit + N * (1e-3 : ℝ)) ((l.position - hit).normalize) spheres st).1.isSome
    then 0 else specularTerm hit N dir spec l)).sum

/-- The primary-ray direction of pixel `(i, j)` (src/main.cpp:156-158). -/
def pixelDir (width height : ℕ) (fov : ℝ) (i j : ℕ) : Vec3 :=
  let x := (2 * ((i : ℝ) + 0.5) / (width : ℝ) - 1) * Real.tan (fov / 2) * (width : ℝ) / (height : ℝ)
  let y := -(2 * ((j : ℝ) + 0.5) / (height : ℝ) - 1) * Real.tan (fov / 2)
  (⟨x, y, -1⟩ : Vec3).normalize

/-- The framebuffer produced by the pixel loop (src/main.cpp:152-161),
row-major (`framebuffer[i + j*width]`), every ray cast from the origin at
depth 0.  `st` models the uninitialised locals of every `cast_ray` call. -/
def render (st : HitData) (spheres : List Sphere) (lights : List Light)
    (width height : ℕ) (fov : ℝ) : List Vec3 :=
  (List.range height).flatMap (fun j =>
    (List.range width).map (fun i =>
      cast_ray st ⟨0, 0, 0⟩ (pixelDir width height fov i j) spheres lights 0))

/-- C's float-to-integer conversion: truncation toward zero. -/
def truncToInt (r : ℝ) : ℤ :=
  if r < 0 then -⌊-r⌋ else ⌊r⌋

/-- One output channel: `(char)(255 * max(0.f, min(1.f, c)))`
(src/main.cpp:166-168). -/
def to_byte (c : ℝ) : ℤ :=
  truncToInt (255 * max 0 (min 1 c))

@[simp] theorem Vec3.add_x (a b : Vec3) : (a + b).x = a.x + b.x := rfl

@[simp] theorem Vec3.add_y (a b : Vec3) : (a + b).y = a.y + b.y := rfl

@[simp] theorem Vec3.add_z (a b : Vec3) : (a + b).z = a.z + b.z := rfl

@[simp] theorem Vec3.sub_x (a b : Vec3) : (a - b).x = a.x - b.x := rfl

@[simp] theorem Vec3.sub_y (a b : Vec3) : (a - b).y = a.y - b.y := rfl

@[simp] theorem Vec3.sub_z (a b : Vec3) : (a - b).z = a.z - b.z := rfl

@[simp] theorem Vec3.neg_x (a : Vec3) : (-a).x = -a.x := rfl

@[simp] theorem Vec3.neg_y (a : Vec3) : (-a).y = -a.y := rfl

@[simp] theorem Vec3.neg_z (a : Vec3) : (-a).z = -a.z := rfl

@[simp] theorem Vec3.smul_x (a : Vec3) (k : ℝ) : (a * k).x = a.x * k := rfl

@[simp] theorem Vec3.smul_y (a : Vec3) (k : ℝ) : (a * k).y = a.y * k := rfl

@[simp] theorem Vec3.smul_z (a : Vec3) (k : ℝ) : (a * k).z = a.z * k := rfl

/-- The PPM header `"P6\n" << width << " " << height << "\n255\n"`
(src/main.cpp:164), as the list of byte values of its characters. -/
def ppm_header (width height : ℕ) : List ℤ :=
  (("P6\n" ++ toString width ++ " " ++ toString height ++ "\n255\n").toList).map
    (fun c => (c.toNat : ℤ))

/-- The byte stream written to `out.ppm` (src/main.cpp:163-170): the header
followed by one `r g b` triplet per framebuffer entry, in order. -/
def ppm_output (width height : ℕ) (fb : List Vec3) : List ℤ :=
  ppm_header width height ++ fb.flatMap (fun c => [to_byte c.x, to_byte c.y, to_byte c.z])

/-! ## Basic facts about the intersection roots -/

theorem Sphere.thc_nonneg (s : Sphere) (orig dir : Vec3) : 0 ≤ s.thc orig dir :=
  Real.sqrt_nonneg _

theorem Sphere.t0_le_t1 (s : Sphere) (orig dir : Vec3) :
    s.t0 orig dir ≤ s.t1 orig dir := by
  have h := s.thc_nonneg orig dir
  unfold Sphere.t0 Sphere.t1
  linarith

/-! ## C1: the edge-case policy of `ray_intersect` -/

/-- C1: `ray_intersect` reports no intersection exactly per the spec's edge
policy: a miss when `d² > radius²` (strict, so tangency proceeds); otherwise
it takes the near root `t0 = tca - thc`, falls back to the far root
`t1 = tca + thc` when `t0 < 0`, and reports a miss when the resulting `t` is
still negative; every reported distance is the nearest non-negative root. -/
theorem ray_intersect_edge_case_policy (s : Sphere) (orig dir : Vec3) :
    (s.radius * s.radius < s.d2 orig dir → s.ray_intersect orig dir = none)
    ∧ (s.d2 orig dir ≤ s.radius * s.radius →
        s.ray_intersect orig dir =
          if 0 ≤ s.t0 orig dir then some (s.t0 orig dir)
          else if 0 ≤ s.t1 orig dir then some (s.t1 orig dir) else none)
    ∧ (∀ t, s.ray_intersect orig dir = some t →
        0 ≤ t ∧ (t = s.t0 orig dir ∨ t = s.t1 orig dir) ∧
        ∀ u, u = s.t0 orig dir ∨ u = s.t1 orig dir → 0 ≤ u → t ≤ u) := by
  have h01 := s.t0_le_t1 orig dir
  refine ⟨fun h => ?_, fun h => ?_, fun t ht => ?_⟩
  · simp only [Sphere.ray_intersect]
    rw [if_pos h]
  · simp only [Sphere.ray_intersect]
    rw [if_neg (not_lt.mpr h)]
    by_cases h0 : s.t0 orig dir < 0
    · rw [if_pos h0, if_neg (not_le.mpr h0)]
      by_cases h1 : s.t1 orig dir < 0
      · rw [if_pos h1, if_neg (not_le.mpr h1)]
      · rw [if_neg h1, if_pos (not_lt.mp h1)]
    · rw [if_neg h0, if_neg h0, if_pos (not_lt.mp h0)]
  · simp only [Sphere.ray_intersect] at ht
    by_cases hd : s.d2 orig dir > s.radius * s.radius
    · rw [if_pos hd] at ht
      exact absurd ht (by simp)
    · rw [if_neg hd] at ht
      by_cases h0 : s.t0 orig dir < 0
      · rw [if_pos h0] at ht
        by_cases h1 : s.t1 orig dir < 0
        · rw [if_pos h1] at ht
          exact absurd ht (by simp)
        · rw [if_neg h1] at ht
          have hteq : t = s.t1 orig dir := Option.some_injective _ ht.symm
          subst hteq
          refine ⟨not_lt.mp h1, Or.inr rfl, fun u hu hu0 => ?_⟩
          rcases hu with hu | hu
          · exact absurd (hu ▸ hu0) (not_le.mpr h0)
          · exact le_of_eq hu.symm
      · rw [if_neg h0, if_neg h0] at ht
        have hteq : t = s.t0 orig dir := Option.some_injective _ ht.symm
        subst hteq
        refine ⟨not_lt.mp h0, Or.inl rfl, fun u hu _ => ?_⟩
        rcases hu with hu | hu
        · exact le_of_eq hu.symm
        · exact hu ▸ h01

/-- Witness for C1: the spec's own example sphere (center `(0,0,-5)`,
radius 1) and ray from the origin along `(0,0,-1)` hit at distance 4. -/
theorem ray_intersect_edge_case_policy_witness :
    (Sphere.mk ⟨0, 0, -5⟩ 1 ⟨0, 0, 0⟩ 0 0).ray_intersect ⟨0, 0, 0⟩ ⟨0, 0, -1⟩ = some 4 := by
  have hd2 : (Sphere.mk (⟨0, 0, -5⟩ : Vec3) 1 ⟨0, 0, 0⟩ 0 0).d2 ⟨0, 0, 0⟩ ⟨0, 0, -1⟩ = 0 := by
    simp [Sphere.d2, Sphere.tca, Vec3.dot]
  have hthc : (Sphere.mk (⟨0, 0, -5⟩ : Vec3) 1 ⟨0, 0, 0⟩ 0 0).thc ⟨0, 0, 0⟩ ⟨0, 0, -1⟩ = 1 := by
    rw [Sphere.thc, hd2]
    norm_num
  have ht0 : (Sphere.mk (⟨0, 0, -5⟩ : Vec3) 1 ⟨0, 0, 0⟩ 0 0).t0 ⟨0, 0, 0⟩ ⟨0, 0, -1⟩ = 4 := by
    rw [Sphere.t0, hthc, Sphere.tca]
    simp [Vec3.dot]
    norm_num
  have h := (ray_intersect_edge_case_policy (Sphere.mk ⟨0, 0, -5⟩ 1 ⟨0, 0, 0⟩ 0 0)
    ⟨0, 0, 0⟩ ⟨0, 0, -1⟩).2.1 (by rw [hd2]; norm_num)
  rw [h, ht0, if_pos (by norm_num : (0:ℝ) ≤ 4)]

/-! ## C6: a ray from strictly inside the sphere always hits -/

/-- C6: if the ray origin lies strictly inside the sphere
(`|center - orig|² < radius²`) then `ray_intersect` reports a hit at a
non-negative distance, never a miss. -/
theorem ray_intersect_inside_hits (s : Sphere) (orig dir : Vec3)
    (h : (s.center - orig).dot (s.center - orig) < s.radius * s.radius) :
    ∃ t, s.ray_intersect orig dir = some t ∧ 0 ≤ t := by
  have htca2 : 0 ≤ s.tca orig dir * s.tca orig dir := mul_self_nonneg _
  have hd2 : s.d2 orig dir < s.radius * s.radius := by
    unfold Sphere.d2
    linarith
  have hkey : s.tca orig dir * s.tca orig dir < s.radius * s.radius - s.d2 orig dir := by
    unfold Sphere.d2
    linarith
  have hthc : |s.tca orig dir| < s.thc orig dir := by
    unfold Sphere.thc
    calc |s.tca orig dir| = Real.sqrt ((s.tca orig dir) ^ 2) :=
          (Real.sqrt_sq_eq_abs _).symm
      _ < Real.sqrt (s.radius * s.radius - s.d2 orig dir) :=
          Real.sqrt_lt_sqrt (sq_nonneg _) (by rw [sq]; exact hkey)
  have ht1 : 0 < s.t1 orig dir := by
    have habs := (abs_lt.mp hthc).1
    unfold Sphere.t1
    linarith
  by_cases h0 : s.t0 orig dir < 0
  · refine ⟨s.t1 orig dir, ?_, ht1.le⟩
    simp only [Sphere.ray_intersect]
    rw [if_neg (not_lt.mpr hd2.le), if_pos h0, if_neg (not_lt.mpr ht1.le)]
  · refine ⟨s.t0 orig dir, ?_, not_lt.mp h0⟩
    simp only [Sphere.ray_intersect]
    rw [if_neg (not_lt.mpr hd2.le), if_neg h0, if_neg h0]

/-- Witness for C6 at a concrete inside configuration: origin at the center
of a unit sphere, ray along `(0,0,1)`. -/
theorem ray_intersect_inside_hits_witness :
    ∃ t, (Sphere.mk ⟨0, 0, 0⟩ 1 ⟨0, 0, 0⟩ 0 0).ray_intersect ⟨0, 0, 0⟩ ⟨0, 0, 1⟩ = some t
      ∧ 0 ≤ t :=
  ray_intersect_inside_hits _ _ _ (by simp [Vec3.dot])

/-! ## Invariants of the `scene_intersect` loop -/

/-- The comparison `t < dist` against the current best distance; `none` is the
`numeric_limits<float>::max()` sentinel, which every candidate beats. -/
def ltOpt (t : ℝ) : Option ℝ → Prop
  | none => True
  | some d => t < d

/-- The best distance computed by the loop does not depend on the initial
values of the out-parameters. -/
theorem sceneLoop_fst_ext (orig dir : Vec3) :
    ∀ (l : List Sphere) (b : Option ℝ) (o₁ o₂ : HitData),
      (sceneLoop orig dir l (b, o₁)).1 = (sceneLoop orig dir l (b, o₂)).1 := by
  intro l
  induction l with
  | nil => intro b o₁ o₂; rfl
  | cons s rest ih =>
      intro b o₁ o₂
      cases h : s.ray_intersect orig dir with
      | none => simp only [sceneLoop, h]; exact ih b o₁ o₂
      | some t =>
          cases b with
          | none => simp only [sceneLoop, h]
          | some d =>
              simp only [sceneLoop, h]
              by_cases hlt : t < d
              · rw [if_pos hlt, if_pos hlt]
              · rw [if_neg hlt, if_neg hlt]
                exact ih (some d) o₁ o₂

/-- The best distance only ever improves: the loop leaves it equal to the
initial value or strictly beats it. -/
theorem sceneLoop_fst_mono (orig dir : Vec3) :
    ∀ (l : List Sphere) (b : Option ℝ) (o : HitData),
      (sceneLoop orig dir l (b, o)).1 = b
      ∨ ∃ t, (sceneLoop orig dir l (b, o)).1 = some t ∧ ltOpt t b := by
  intro l
  induction l with
  | nil => intro b o; left; rfl
  | cons s rest ih =>
      intro b o
      cases h : s.ray_intersect orig dir with
      | none => simp only [sceneLoop, h]; exact ih b o
      | some t =>
          cases b with
          | none =>
              simp only [sceneLoop, h]
              rcases ih (some t) (hitWrite orig dir s t) with h1 | ⟨t', h1, h2⟩
              · exact Or.inr ⟨t, h1, trivial⟩
              · exact Or.inr ⟨t', h1, trivial⟩
          | some d =>
              simp only [sceneLoop, h]
              by_cases hlt : t < d
              · rw [if_pos hlt]
                rcases ih (some t) (hitWrite orig dir s t) with h1 | ⟨t', h1, h2⟩
                · exact Or.inr ⟨t, h1, hlt⟩
                · exact Or.inr ⟨t', h1, lt_trans h2 hlt⟩
              · rw [if_neg hlt]
                exact ih (some d) o

/-- If the loop does not improve the best distance, it writes nothing: the
out-parameters keep their initial values. -/
theorem sceneLoop_unchanged (orig dir : Vec3) :
    ∀ (l : List Sphere) (b : Option ℝ) (o : HitData),
      (sceneLoop orig dir l (b, o)).1 = b → (sceneLoop orig dir l (b, o)).2 = o := by
  intro l
  induction l with
  | nil => intro b o _; rfl
  | cons s rest ih =>
      intro b o hb
      cases h : s.ray_intersect orig dir with
      | none =>
          simp only [sceneLoop, h] at hb ⊢
          exact ih b o hb
      | some t =>
          cases b with
          | none =>
              simp only [sceneLoop, h] at hb
              rcases sceneLoop_fst_mono orig dir rest (some t) (hitWrite orig dir s t) with
                h1 | ⟨t', h1, _⟩
              · rw [h1] at hb; exact absurd hb (by simp)
              · rw [h1] at hb; exact absurd hb (by simp)
          | some d =>
              simp only [sceneLoop, h] at hb ⊢
              by_cases hlt : t < d
              · rw [if_pos hlt] at hb ⊢
                rcases sceneLoop_fst_mono orig dir rest (some t) (hitWrite orig dir s t) with
                  h1 | ⟨t', h1, h2⟩
                · rw [h1] at hb
                  have : t = d := Option.some_injective _ hb
                  exact absurd hlt (by rw [this]; exact lt_irrefl d)
                · rw [h1] at hb
                  have : t' = d := Option.some_injective _ hb
                  have hdt : d < t := this ▸ h2
                  exact absurd hlt (not_lt.mpr hdt.le)
              · rw [if_neg hlt] at hb ⊢
                exact ih (some d) o hb

/-- Once the loop has improved the best distance, the final out-parameters
do not depend on their initial values. -/
theorem sceneLoop_snd_ext (orig dir : Vec3) :
    ∀ (l : List Sphere) (b : Option ℝ) (o₁ o₂ : HitData),
      (sceneLoop orig dir l (b, o₁)).1 ≠ b →
      (sceneLoop orig dir l (b, o₁)).2 = (sceneLoop orig dir l (b, o₂)).2 := by
  intro l
  induction l with
  | nil => intro b o₁ o₂ hb; exact absurd rfl hb
  | cons s rest ih =>
      intro b o₁ o₂ hb
      cases h : s.ray_intersect orig dir with
      | none =>
          simp only [sceneLoop, h] at hb ⊢
          exact ih b o₁ o₂ hb
      | some t =>
          cases b with
          | none => simp only [sceneLoop, h]
          | some d =>
              simp only [sceneLoop, h] at hb ⊢
              by_cases hlt : t < d
              · simp only [if_pos hlt]
              · simp only [if_neg hlt] at hb ⊢
                exact ih (some d) o₁ o₂ hb

/-- Full run characterisation of the `scene_intersect` loop: either no
candidate beats the incoming best distance and nothing is written, or the
list splits as `pre ++ winner :: post` where the winner's distance `d`
beats the incoming best, every sphere before it hits strictly farther than
`d`, every sphere after it hits no closer than `d`, and the final state is
`(some d, hitWrite winner d)`. -/
theorem sceneLoop_spec (orig dir : Vec3) :
    ∀ (l : List Sphere) (b : Option ℝ) (o : HitData),
      (sceneLoop orig dir l (b, o) = (b, o)
        ∧ ∀ s ∈ l, ∀ t, s.ray_intersect orig dir = some t → ¬ ltOpt t b)
      ∨ ∃ pre s post d, l = pre ++ s :: post
          ∧ s.ray_intersect orig dir = some d
          ∧ ltOpt d b
          ∧ (∀ s' ∈ pre, ∀ t, s'.ray_intersect orig dir = some t → d < t)
          ∧ (∀ s' ∈ post, ∀ t, s'.ray_intersect orig dir = some t → d ≤ t)
          ∧ sceneLoop orig dir l (b, o) = (some d, hitWrite orig dir s d) := by
  intro l
  induction l with
  | nil =>
      intro b o
      exact Or.inl ⟨rfl, by simp⟩
  | cons s₀ rest ih =>
      intro b o
      cases h₀ : s₀.ray_intersect orig dir with
      | none =>
          simp only [sceneLoop, h₀]
          rcases ih b o with ⟨heq, hnb⟩ | ⟨pre, s, post, d, hdec, hhit, hbeat, hpre, hpost, heq⟩
          · refine Or.inl ⟨heq, ?_⟩
            intro s hs t ht
            rcases List.mem_cons.mp hs with rfl | hs
            · rw [h₀] at ht; exact absurd ht (by simp)
            · exact hnb s hs t ht
          · refine Or.inr ⟨s₀ :: pre, s, post, d, by rw [hdec]; rfl, hhit, hbeat, ?_, hpost, heq⟩
            intro s' hs' t ht
            rcases List.mem_cons.mp hs' with rfl | hs'
            · rw [h₀] at ht; exact absurd ht (by simp)
            · exact hpre s' hs' t ht
      | some t₀ =>
          have improve : ∀ (hb : ltOpt t₀ b),
              sceneLoop orig dir rest (some t₀, hitWrite orig dir s₀ t₀) = sceneLoop orig dir rest (some t₀, hitWrite orig dir s₀ t₀) →
              (sceneLoop orig dir rest (some t₀, hitWrite orig dir s₀ t₀) = (b, o)
                ∧ ∀ s ∈ s₀ :: rest, ∀ t, s.ray_intersect orig dir = some t → ¬ ltOpt t b)
              ∨ ∃ pre s post d, s₀ :: rest = pre ++ s :: post
                  ∧ s.ray_intersect orig dir = some d
                  ∧ ltOpt d b
                  ∧ (∀ s' ∈ pre, ∀ t, s'.ray_intersect orig dir = some t → d < t)
                  ∧ (∀ s' ∈ post, ∀ t, s'.ray_intersect orig dir = some t → d ≤ t)
                  ∧ sceneLoop orig dir rest (some t₀, hitWrite orig dir s₀ t₀) = (some d, hitWrite orig dir s d) := by
            intro hb _
            rcases ih (some t₀) (hitWrite orig dir s₀ t₀) with ⟨heq, hnb⟩ |
              ⟨pre, s, post, d, hdec, hhit, hbeat, hpre, hpost, heq⟩
            · refine Or.inr ⟨[], s₀, rest, t₀, rfl, h₀, hb, by simp, ?_, heq⟩
              intro s' hs' t ht
              have := hnb s' hs' t ht
              simpa [ltOpt] using not_lt.mp (by simpa [ltOpt] using this)
            · refine Or.inr ⟨s₀ :: pre, s, post, d, by rw [hdec]; rfl, hhit, ?_, ?_, hpost, heq⟩
              · have hd : d < t₀ := hbeat
                cases b with
                | none => trivial
                | some db =>
                    have : t₀ < db := hb
                    exact lt_trans hd this
              · intro s' hs' t ht
                rcases List.mem_cons.mp hs' with rfl | hs'
                · have : t = t₀ := Option.some_injective _ (ht.symm.trans h₀)
                  rw [this]
                  exact hbeat
                · exact hpre s' hs' t ht
          cases b with
          | none =>
              simp only [sceneLoop, h₀]
              exact improve trivial rfl
          | some db =>
              simp only [sceneLoop, h₀]
              by_cases hlt : t₀ < db
              · rw [if_pos hlt]
                exact improve hlt rfl
              · rw [if_neg hlt]
                rcases ih (some db) o with ⟨heq, hnb⟩ |
                  ⟨pre, s, post, d, hdec, hhit, hbeat, hpre, hpost, heq⟩
                · refine Or.inl ⟨heq, ?_⟩
                  intro s hs t ht
                  rcases List.mem_cons.mp hs with rfl | hs
                  · have : t = t₀ := Option.some_injective _ (ht.symm.trans h₀)
                    rw [this]
                    exact hlt
                  · exact hnb s hs t ht
                · refine Or.inr ⟨s₀ :: pre, s, post, d, by rw [hdec]; rfl, hhit, hbeat, ?_, hpost, heq⟩
                  intro s' hs' t ht
                  rcases List.mem_cons.mp hs' with rfl | hs'
                  · have htt : t = t₀ := Option.some_injective _ (ht.symm.trans h₀)
                    have hd : d < db := hbeat
                    rw [htt]
                    exact lt_of_lt_of_le hd (not_lt.mp hlt)
                  · exact hpre s' hs' t ht

/-! ## C2: `scene_intersect` returns the globally nearest hit -/

/-- C2: `scene_intersect` reports no hit exactly when no sphere intersects
the ray; on a hit its distance is the minimum over all sphere hits, the
winning sphere is the first in list order at that distance (every sphere
scanned before it hits strictly farther, by the strictly-less comparison),
and the out-parameters hold the winner's hit data. -/
theorem scene_intersect_nearest (orig dir : Vec3) (spheres : List Sphere) (st : HitData) :
    ((scene_intersect orig dir spheres st).1 = none ↔
      ∀ s ∈ spheres, s.ray_intersect orig dir = none)
    ∧ ∀ d, (scene_intersect orig dir spheres st).1 = some d →
        (∀ s ∈ spheres, ∀ t, s.ray_intersect orig dir = some t → d ≤ t)
        ∧ ∃ pre s post, spheres = pre ++ s :: post
            ∧ s.ray_intersect orig dir = some d
            ∧ (∀ s' ∈ pre, ∀ t, s'.ray_intersect orig dir = some t → d < t)
            ∧ (scene_intersect orig dir spheres st).2 = hitWrite orig dir s d := by
  rcases sceneLoop_spec orig dir spheres none st with ⟨heq, hnb⟩ |
    ⟨pre, s, post, d, hdec, hhit, _, hpre, hpost, heq⟩
  · have hfst : (scene_intersect orig dir spheres st).1 = none := by
      unfold scene_intersect
      rw [heq]
    constructor
    · constructor
      · intro _ s hs
        cases hx : s.ray_intersect orig dir with
        | none => rfl
        | some t => exact absurd trivial (hnb s hs t hx)
      · intro _
        exact hfst
    · intro d hd
      rw [hfst] at hd
      exact absurd hd (by simp)
  · have hfst : (scene_intersect orig dir spheres st).1 = some d := by
      unfold scene_intersect
      rw [heq]
    have hsmem : s ∈ spheres := by
      rw [hdec]
      exact List.mem_append_right _ (List.mem_cons_self s post)
    constructor
    · constructor
      · intro hnone
        rw [hfst] at hnone
        exact absurd hnone (by simp)
      · intro hall
        have := hall s hsmem
        rw [hhit] at this
        exact absurd this (by simp)
    · intro d' hd'
      have hdd : d' = d := Option.some_injective _ (hd'.symm.trans hfst)
      subst hdd
      refine ⟨?_, pre, s, post, hdec, hhit, hpre, by unfold scene_intersect; rw [heq]⟩
      intro s' hs' t ht
      rw [hdec] at hs'
      rcases List.mem_append.mp hs' with hp | hr
      · exact (hpre s' hp t ht).le
      · rcases List.mem_cons.mp hr with rfl | hq
        · exact le_of_eq (Option.some_injective _ (hhit.symm.trans ht))
        · exact hpost s' hq t ht

/-- A concrete sphere at `(0,0,-5)` with radius 1, used by witnesses. -/
def sphereA : Sphere :=
  ⟨⟨0, 0, -5⟩, 1, ⟨0.4, 0.4, 0.3⟩, 50, 0.2⟩

/-- A concrete sphere at `(0,0,-10)` with radius 1, used by witnesses. -/
def sphereB : Sphere :=
  ⟨⟨0, 0, -10⟩, 1, ⟨0.3, 0.1, 0.1⟩, 10, 0.4⟩

/-- A concrete initial value for the out-parameter record. -/
def st0 : HitData :=
  ⟨⟨0, 0, 0⟩, ⟨0, 0, 0⟩, ⟨0, 0, 0⟩, 0, 0⟩

theorem eval_sphereA :
    sphereA.ray_intersect ⟨0, 0, 0⟩ ⟨0, 0, -1⟩ = some 4 := by
  norm_num [sphereA, Sphere.ray_intersect, Sphere.d2, Sphere.tca, Sphere.t0, Sphere.t1,
    Sphere.thc, Vec3.dot, Real.sqrt_one]

theorem eval_sphereB :
    sphereB.ray_intersect ⟨0, 0, 0⟩ ⟨0, 0, -1⟩ = some 9 := by
  norm_num [sphereB, Sphere.ray_intersect, Sphere.d2, Sphere.tca, Sphere.t0, Sphere.t1,
    Sphere.thc, Vec3.dot, Real.sqrt_one]

theorem eval_sceneAB :
    (scene_intersect ⟨0, 0, 0⟩ ⟨0, 0, -1⟩ [sphereA, sphereB] st0).1 = some 4 := by
  norm_num [scene_intersect, sceneLoop, eval_sphereA, eval_sphereB]

/-- Witness for C2: on the two-sphere scene hit at distances 4 and 9, the
scan reports distance 4 and 4 is a lower bound for the hit of `sphereB`. -/
theorem scene_intersect_nearest_witness :
    (scene_intersect ⟨0, 0, 0⟩ ⟨0, 0, -1⟩ [sphereA, sphereB] st0).1 = some 4
      ∧ (4 : ℝ) ≤ 9 :=
  ⟨eval_sceneAB,
    ((scene_intersect_nearest ⟨0, 0, 0⟩ ⟨0, 0, -1⟩ [sphereA, sphereB] st0).2 4
      eval_sceneAB).1 sphereB (by simp) 9 eval_sphereB⟩

/-! ## C10: a missed `scene_intersect` writes nothing and is never read -/

/-- C10: when `scene_intersect` reports no hit, the out-parameters keep
exactly the values they held before the call, and `cast_ray` on that ray
returns the background color without reading them (for any lights and any
depth). -/
theorem scene_intersect_miss_frame (orig dir : Vec3) (spheres : List Sphere) (st : HitData)
    (h : (scene_intersect orig dir spheres st).1 = none) :
    (scene_intersect orig dir spheres st).2 = st
    ∧ ∀ (lights : List Light) (depth : ℕ),
        cast_ray st orig dir spheres lights depth = background := by
  refine ⟨sceneLoop_unchanged orig dir spheres none st h, ?_⟩
  intro lights depth
  rw [cast_ray]
  by_cases hd : depth > 4
  · rw [if_pos hd]
  · rw [if_neg hd]
    rcases hsc : scene_intersect orig dir spheres st with ⟨b, o⟩
    rw [hsc] at h
    simp only at h
    subst h
    rfl

/-- Witness for C10: the empty scene misses, keeps `st0` intact, and the
caller returns the background. -/
theorem scene_intersect_miss_frame_witness :
    (scene_intersect ⟨0, 0, 0⟩ ⟨0, 0, 1⟩ [] st0).2 = st0
      ∧ cast_ray st0 ⟨0, 0, 0⟩ ⟨0, 0, 1⟩ [] [] 0 = background :=
  ⟨(scene_intersect_miss_frame ⟨0, 0, 0⟩ ⟨0, 0, 1⟩ [] st0 rfl).1,
    (scene_intersect_miss_frame ⟨0, 0, 0⟩ ⟨0, 0, 1⟩ [] st0 rfl).2 [] 0⟩

/-! ## C5: the recursion bound -/

/-- C5: `cast_ray` is a total function (its Lean definition is by
well-founded recursion on `5 - depth`, so it terminates on every input),
and whenever `depth` exceeds 4 it returns exactly the background color
without performing any intersection test, for every scene — including
mutually facing mirrors. -/
theorem cast_ray_depth_bound (st : HitData) (orig dir : Vec3) (spheres : List Sphere)
    (lights : List Light) (depth : ℕ) (h : 4 < depth) :
    cast_ray st orig dir spheres lights depth = background := by
  rw [cast_ray, if_pos h]

/-- Witness for C5 at `depth = 5` on a concrete scene. -/
theorem cast_ray_depth_bound_witness :
    cast_ray st0 ⟨0, 0, 0⟩ ⟨0, 0, -1⟩ [sphereA] [] 5 = background :=
  cast_ray_depth_bound st0 ⟨0, 0, 0⟩ ⟨0, 0, -1⟩ [sphereA] [] 5 (by norm_num)

/-! ## C3: an occluded light contributes nothing -/

/-- C3: if the shadow ray from `hit + N*1e-3` toward a light intersects any
sphere — at any distance, with no cap at the light's own distance — then
that light leaves the diffuse and specular accumulators exactly unchanged,
and its terms in the light sums are exactly zero. -/
theorem shadowed_light_contributes_zero (st : HitData) (hit N dir : Vec3) (spec : ℝ)
    (spheres : List Sphere) (acc : ℝ × ℝ) (light : Light)
    (h : occluded st hit N spheres light) :
    lightStep st hit N dir spec spheres acc light = acc
    ∧ totalDiffuse st hit N spheres [light] = 0
    ∧ totalSpecular st hit N dir spec spheres [light] = 0 := by
  have hb : (scene_intersect (hit + N * (1e-3 : ℝ)) ((light.position - hit).normalize)
      spheres st).1.isSome = true := h
  refine ⟨?_, ?_, ?_⟩
  · simp only [lightStep]
    rw [if_pos hb]
  · simp only [totalDiffuse, List.map_cons, List.map_nil, List.sum_cons, List.sum_nil]
    rw [if_pos hb]
    norm_num
  · simp only [totalSpecular, List.map_cons, List.map_nil, List.sum_cons, List.sum_nil]
    rw [if_pos hb]
    norm_num

/-- A sphere that occludes `lightC`'s shadow ray, sitting beyond the light. -/
def occluderC : Sphere :=
  ⟨⟨0, 0, 2⟩, 1, ⟨0.3, 0.4, 0.3⟩, 100, 0.3⟩

/-- A light closer to the shaded point than `occluderC`. -/
def lightC : Light :=
  ⟨⟨0, 0, 1⟩, 1⟩

theorem eval_shadowC :
    (scene_intersect ((⟨0, 0, 0⟩ : Vec3) + (⟨0, 0, 1⟩ : Vec3) * (1e-3 : ℝ))
      ((lightC.position - (⟨0, 0, 0⟩ : Vec3)).normalize) [occluderC] st0).1
      = some (999 / 1000) := by
  norm_num [lightC, occluderC, scene_intersect, sceneLoop, Sphere.ray_intersect,
    Sphere.d2, Sphere.tca, Sphere.t0, Sphere.t1, Sphere.thc, Vec3.dot, Vec3.normalize,
    Real.sqrt_one]

/-- Witness for C3: the point at the origin with normal `(0,0,1)` is
shadowed from `lightC` by `occluderC` (which lies beyond the light), so the
accumulators are unchanged and both light sums are zero. -/
theorem shadowed_light_contributes_zero_witness :
    lightStep st0 ⟨0, 0, 0⟩ ⟨0, 0, 1⟩ ⟨0, 0, -1⟩ 50 [occluderC] (0, 0) lightC = (0, 0)
    ∧ totalDiffuse st0 ⟨0, 0, 0⟩ ⟨0, 0, 1⟩ [occluderC] [lightC] = 0
    ∧ totalSpecular st0 ⟨0, 0, 0⟩ ⟨0, 0, 1⟩ ⟨0, 0, -1⟩ 50 [occluderC] [lightC] = 0 :=
  shadowed_light_contributes_zero st0 ⟨0, 0, 0⟩ ⟨0, 0, 1⟩ ⟨0, 0, -1⟩ 50 [occluderC]
    (0, 0) lightC (by rw [occluded, eval_shadowC]; rfl)

/-! ## C4: the shading combination formula -/

/-- The light loop's fold computes exactly the sums of the per-light
diffuse and specular terms over the unoccluded lights. -/
theorem foldl_lightStep (st : HitData) (hit N dir : Vec3) (spec : ℝ)
    (spheres : List Sphere) :
    ∀ (lights : List Light) (a b : ℝ),
      lights.foldl (lightStep st hit N dir spec spheres) (a, b)
        = (a + totalDiffuse st hit N spheres lights,
           b + totalSpecular st hit N dir spec spheres lights) := by
  intro lights
  induction lights with
  | nil =>
      intro a b
      simp [totalDiffuse, totalSpecular]
  | cons l ls ih =>
      intro a b
      simp only [List.foldl_cons]
      by_cases hocc : (scene_intersect (hit + N * (1e-3 : ℝ))
          ((l.position - hit).normalize) spheres st).1.isSome = true
      · have hstep : lightStep st hit N dir spec spheres (a, b) l = (a, b) := by
          simp only [lightStep]
          rw [if_pos hocc]
        rw [hstep, ih a b]
        simp only [totalDiffuse, totalSpecular, List.map_cons, List.sum_cons, if_pos hocc,
          zero_add]
      · have hstep : lightStep st hit N dir spec spheres (a, b) l
            = (a + diffuseTerm hit N l, b + specularTerm hit N dir spec l) := by
          simp only [lightStep]
          rw [if_neg hocc]
          rfl
        rw [hstep, ih (a + diffuseTerm hit N l) (b + specularTerm hit N dir spec l)]
        simp only [totalDiffuse, totalSpecular, List.map_cons, List.sum_cons, if_neg hocc,
          Prod.mk.injEq]
        exact ⟨by ring, by ring⟩

/-- C4: on every hit (depth within bound and a successful intersection),
`cast_ray` returns exactly
`surfaceColor * totalDiffuse * (1 - reflectivity) + white * totalSpecular * 0.6
 + reflectedColor * reflectivity`, where the totals sum the per-light terms
over the unoccluded lights and the reflected color is the recursive cast of
the reflected ray. -/
theorem cast_ray_shading_formula (st : HitData) (orig dir : Vec3) (spheres : List Sphere)
    (lights : List Light) (depth : ℕ) (hdepth : depth ≤ 4)
    (d : ℝ) (hhit : (scene_intersect orig dir spheres st).1 = some d) :
    cast_ray st orig dir spheres lights depth =
      (scene_intersect orig dir spheres st).2.color
        * totalDiffuse st (scene_intersect orig dir spheres st).2.hit
            (scene_intersect orig dir spheres st).2.N spheres lights
        * (1 - (scene_intersect orig dir spheres st).2.refl)
      + (⟨1, 1, 1⟩ : Vec3)
        * totalSpecular st (scene_intersect orig dir spheres st).2.hit
            (scene_intersect orig dir spheres st).2.N dir
            (scene_intersect orig dir spheres st).2.spec spheres lights
        * (0.6 : ℝ)
      + cast_ray st
          ((scene_intersect orig dir spheres st).2.hit
            + (scene_intersect orig dir spheres st).2.N * (1e-3 : ℝ))
          ((reflect dir (scene_intersect orig dir spheres st).2.N).normalize)
          spheres lights (depth + 1)
        * (scene_intersect orig dir spheres st).2.refl := by
  rw [cast_ray, if_neg (not_lt.mpr hdepth)]
  rcases hsc : scene_intersect orig dir spheres st with ⟨b, o⟩
  rw [hsc] at hhit
  simp only at hhit
  subst hhit
  dsimp only
  rw [foldl_lightStep st o.hit o.N dir o.spec spheres lights 0 0]
  simp only [zero_add]

theorem eval_sceneA1 :
    (scene_intersect ⟨0, 0, 0⟩ ⟨0, 0, -1⟩ [sphereA] st0).1 = some 4 := by
  norm_num [scene_intersect, sceneLoop, eval_sphereA]

/-- Witness for C4 on the single-sphere scene with no lights: the hit at
distance 4 produces the combination formula with zero light sums. -/
theorem cast_ray_shading_formula_witness :
    cast_ray st0 ⟨0, 0, 0⟩ ⟨0, 0, -1⟩ [sphereA] [] 0 =
      (scene_intersect ⟨0, 0, 0⟩ ⟨0, 0, -1⟩ [sphereA] st0).2.color
        * totalDiffuse st0 (scene_intersect ⟨0, 0, 0⟩ ⟨0, 0, -1⟩ [sphereA] st0).2.hit
            (scene_intersect ⟨0, 0, 0⟩ ⟨0, 0, -1⟩ [sphereA] st0).2.N [sphereA] []
        * (1 - (scene_intersect ⟨0, 0, 0⟩ ⟨0, 0, -1⟩ [sphereA] st0).2.refl)
      + (⟨1, 1, 1⟩ : Vec3)
        * totalSpecular st0 (scene_intersect ⟨0, 0, 0⟩ ⟨0, 0, -1⟩ [sphereA] st0).2.hit
            (scene_intersect ⟨0, 0, 0⟩ ⟨0, 0, -1⟩ [sphereA] st0).2.N ⟨0, 0, -1⟩
            (scene_intersect ⟨0, 0, 0⟩ ⟨0, 0, -1⟩ [sphereA] st0).2.spec [sphereA] []
        * (0.6 : ℝ)
      + cast_ray st0
          ((scene_intersect ⟨0, 0, 0⟩ ⟨0, 0, -1⟩ [sphereA] st0).2.hit
            + (scene_intersect ⟨0, 0, 0⟩ ⟨0, 0, -1⟩ [sphereA] st0).2.N * (1e-3 : ℝ))
          ((reflect ⟨0, 0, -1⟩ (scene_intersect ⟨0, 0, 0⟩ ⟨0, 0, -1⟩ [sphereA] st0).2.N).normalize)
          [sphereA] [] (0 + 1)
        * (scene_intersect ⟨0, 0, 0⟩ ⟨0, 0, -1⟩ [sphereA] st0).2.refl :=
  cast_ray_shading_formula st0 ⟨0, 0, 0⟩ ⟨0, 0, -1⟩ [sphereA] [] 0 (by norm_num) 4 eval_sceneA1

/-! ## C8: determinism / purity of the render pipeline -/

/-- One light-loop iteration does not depend on the shadow query's local
out-parameter scratch values. -/
theorem lightStep_ext (st₁ st₂ : HitData) (hit N dir : Vec3) (spec : ℝ)
    (spheres : List Sphere) (acc : ℝ × ℝ) (light : Light) :
    lightStep st₁ hit N dir spec spheres acc light
      = lightStep st₂ hit N dir spec spheres acc light := by
  simp only [lightStep, scene_intersect,
    sceneLoop_fst_ext (hit + N * (1e-3 : ℝ)) ((light.position - hit).normalize)
      spheres none st₁ st₂]

/-- Strong induction step for C8: the color computed by `cast_ray` does not
depend on the initial scratch values of its local out-parameter record, at
any depth with fuel `n ≥ 5 - depth`. -/
theorem cast_ray_st_ext_aux :
    ∀ (n depth : ℕ), 5 - depth ≤ n →
      ∀ (st₁ st₂ : HitData) (orig dir : Vec3) (spheres : List Sphere) (lights : List Light),
        cast_ray st₁ orig dir spheres lights depth = cast_ray st₂ orig dir spheres lights depth := by
  intro n
  induction n with
  | zero =>
      intro depth hd st₁ st₂ orig dir spheres lights
      have h4 : 4 < depth := by omega
      rw [cast_ray, if_pos h4, cast_ray, if_pos h4]
  | succ n ih =>
      intro depth hd st₁ st₂ orig dir spheres lights
      by_cases hdep : 4 < depth
      · rw [cast_ray, if_pos hdep, cast_ray, if_pos hdep]
      · rw [cast_ray, if_neg hdep, cast_ray, if_neg hdep]
        have hfst : (scene_intersect orig dir spheres st₁).1
            = (scene_intersect orig dir spheres st₂).1 :=
          sceneLoop_fst_ext orig dir spheres none st₁ st₂
        rcases h₁ : scene_intersect orig dir spheres st₁ with ⟨b₁, o₁⟩
        rcases h₂ : scene_intersect orig dir spheres st₂ with ⟨b₂, o₂⟩
        rw [h₁, h₂] at hfst
        simp only at hfst
        subst hfst
        cases b₁ with
        | none => rfl
        | some d =>
            have hsnd : o₁ = o₂ := by
              have hne : (sceneLoop orig dir spheres (none, st₁)).1 ≠ none := by
                rw [show sceneLoop orig dir spheres (none, st₁)
                    = scene_intersect orig dir spheres st₁ from rfl, h₁]
                simp
              have := sceneLoop_snd_ext orig dir spheres none st₁ st₂ hne
              rw [show sceneLoop orig dir spheres (none, st₁)
                  = scene_intersect orig dir spheres st₁ from rfl, h₁,
                show sceneLoop orig dir spheres (none, st₂)
                  = scene_intersect orig dir spheres st₂ from rfl, h₂] at this
              exact this
            subst hsnd
            dsimp only
            have hls : lights.foldl (lightStep st₁ o₁.hit o₁.N dir o₁.spec spheres) (0, 0)
                = lights.foldl (lightStep st₂ o₁.hit o₁.N dir o₁.spec spheres) (0, 0) := by
              have hf : lightStep st₁ o₁.hit o₁.N dir o₁.spec spheres
                  = lightStep st₂ o₁.hit o₁.N dir o₁.spec spheres := by
                funext acc light
                exact lightStep_ext st₁ st₂ o₁.hit o₁.N dir o₁.spec spheres acc light
              rw [hf]
            rw [hls, ih (depth + 1) (by omega) st₁ st₂ (o₁.hit + o₁.N * (1e-3 : ℝ))
              ((reflect dir o₁.N).normalize) spheres lights]

/-- C8: rendering is deterministic — `cast_ray` is a pure function of the
ray, scene and depth: its result does not depend on the initial values of
the mutable locals the C++ threads through `scene_intersect`'s reference
parameters, and the whole framebuffer produced by `render` is likewise
identical across such variations (so two invocations on the same scene
produce identical buffers). -/
theorem render_deterministic (st₁ st₂ : HitData) :
    (∀ (orig dir : Vec3) (spheres : List Sphere) (lights : List Light) (depth : ℕ),
      cast_ray st₁ orig dir spheres lights depth = cast_ray st₂ orig dir spheres lights depth)
    ∧ ∀ (spheres : List Sphere) (lights : List Light) (width height : ℕ) (fov : ℝ),
      render st₁ spheres lights width height fov = render st₂ spheres lights width height fov := by
  have hcast : ∀ (orig dir : Vec3) (spheres : List Sphere) (lights : List Light) (depth : ℕ),
      cast_ray st₁ orig dir spheres lights depth = cast_ray st₂ orig dir spheres lights depth :=
    fun orig dir spheres lights depth =>
      cast_ray_st_ext_aux 5 depth (by omega) st₁ st₂ orig dir spheres lights
  refine ⟨hcast, ?_⟩
  intro spheres lights width height fov
  simp only [render]
  have hfun : (fun j => (List.range width).map fun i =>
        cast_ray st₁ ⟨0, 0, 0⟩ (pixelDir width height fov i j) spheres lights 0)
      = fun j => (List.range width).map fun i =>
        cast_ray st₂ ⟨0, 0, 0⟩ (pixelDir width height fov i j) spheres lights 0 := by
    funext j
    have : (fun i => cast_ray st₁ ⟨0, 0, 0⟩ (pixelDir width height fov i j) spheres lights 0)
        = fun i => cast_ray st₂ ⟨0, 0, 0⟩ (pixelDir width height fov i j) spheres lights 0 :=
      funext fun i => hcast ⟨0, 0, 0⟩ (pixelDir width height fov i j) spheres lights 0
    rw [this]
  rw [hfun]

/-! ## C7: the PPM byte format -/

/-- C7: each output channel byte is the truncation — equal to the floor,
since the clamped value is non-negative — of `255 * clamp(channel, 0, 1)`,
it always fits in 8 bits, and the pixel bytes are preceded by the header
`"P6\n<width> <height>\n255\n"` with exactly `width*height` RGB triplets. -/
theorem ppm_output_format :
    (∀ c : ℝ, to_byte c = ⌊255 * max 0 (min 1 c)⌋ ∧ 0 ≤ to_byte c ∧ to_byte c ≤ 255)
    ∧ ∀ (w h : ℕ) (fb : List Vec3), fb.length = w * h →
        ∃ pix, ppm_output w h fb = ppm_header w h ++ pix
          ∧ pix.length = 3 * (w * h)
          ∧ ∀ b ∈ pix, 0 ≤ b ∧ b ≤ 255 := by
  have hbyte : ∀ c : ℝ, to_byte c = ⌊255 * max 0 (min 1 c)⌋ ∧ 0 ≤ to_byte c ∧ to_byte c ≤ 255 := by
    intro c
    have h0 : (0 : ℝ) ≤ 255 * max 0 (min 1 c) := by positivity
    have heq : to_byte c = ⌊255 * max 0 (min 1 c)⌋ := by
      rw [to_byte, truncToInt, if_neg (not_lt.mpr h0)]
    refine ⟨heq, ?_, ?_⟩
    · rw [heq]
      exact Int.floor_nonneg.mpr h0
    · rw [heq]
      have hle : 255 * max 0 (min 1 c) ≤ (255 : ℝ) := by
        have h1 : max 0 (min 1 c) ≤ 1 := max_le (by norm_num) (min_le_left 1 c)
        nlinarith
      calc ⌊255 * max 0 (min 1 c)⌋ ≤ ⌊(255 : ℝ)⌋ := Int.floor_le_floor hle
        _ = 255 := by norm_num
  refine ⟨hbyte, ?_⟩
  intro w h fb hlen
  refine ⟨fb.flatMap (fun c => [to_byte c.x, to_byte c.y, to_byte c.z]), rfl, ?_, ?_⟩
  · have hflat : ∀ (l : List Vec3),
        (l.flatMap (fun c => [to_byte c.x, to_byte c.y, to_byte c.z])).length = 3 * l.length := by
      intro l
      induction l with
      | nil => rfl
      | cons v t iht =>
          simp only [List.flatMap_cons, List.length_append, List.length_cons,
            List.length_nil, iht]
          omega
    rw [hflat fb, hlen]
  · intro b hb
    rcases List.mem_flatMap.mp hb with ⟨v, _, hbv⟩
    rcases List.mem_cons.mp hbv with rfl | hbv
    · exact ⟨(hbyte v.x).2.1, (hbyte v.x).2.2⟩
    rcases List.mem_cons.mp hbv with rfl | hbv
    · exact ⟨(hbyte v.y).2.1, (hbyte v.y).2.2⟩
    rcases List.mem_cons.mp hbv with rfl | hbv
    · exact ⟨(hbyte v.z).2.1, (hbyte v.z).2.2⟩
    · exact absurd hbv (by simp)

/-- Witness for C7: a one-pixel framebuffer whose channels over-, in- and
under-shoot the clamp range. -/
theorem ppm_output_format_witness :
    ∃ pix, ppm_output 1 1 [⟨2, 1 / 2, -1⟩] = ppm_header 1 1 ++ pix
      ∧ pix.length = 3 * (1 * 1)
      ∧ ∀ b ∈ pix, 0 ≤ b ∧ b ≤ 255 :=
  ppm_output_format.2 1 1 [⟨2, 1 / 2, -1⟩] rfl

end
